import Mathlib

/-!
Shallow embedding of the multi-language execution engine of the code-runner
extension: the `runCode` function of `utils/codeRunner.ts` (the variant that
still supports java) and the toolchain detector (`findExecutable`,
`detectInstalledLanguages`) of `src/run-code.tsx`.

Host-environment effects are made explicit:
  * the filesystem state visible to the engine is `FS` (the temp directory and
    the files inside it);
  * a `fs.mkdirSync` or `fs.writeFileSync` exception is injected through the
    `Env` record (`mkdirThrows` / `writeThrows`, carrying the message of the
    thrown Error);
  * the outcome of `child_process.exec` is the `ExecOutcome` record: `err =
    none` models the callback receiving a null error, which happens exactly
    when the spawned process exited with status zero; `some msg` models a
    non-null error (non-zero exit, spawn failure or timeout) whose `message`
    is `msg`; `createdFiles` are the files the spawned pipeline itself wrote
    into the temp directory (e.g. the go binary or java class files);
  * an exception escaping `runCode` (the returned promise rejecting) is the
    `Except.error` case of its result.
-/

namespace CodeRunner

/-- Result record of one execution (interface `CodeExecutionResult`): captured
stdout and stderr, the error field (null on success) and the executed command
(the empty string on the failure paths, matching the source's `command: ''`). -/
structure CodeExecutionResult where
  stdout : String
  stderr : String
  error : Option String
  command : String
deriving Repr, DecidableEq

/-- Outcome of `child_process.exec` on the wrapped command. `err = none` models
the callback receiving a null error (the process exited with status zero);
`err = some msg` models a non-null error with message `msg`. `stdout` and
`stderr` are whatever the process emitted before terminating. `createdFiles`
are the files the spawned pipeline wrote into the temp directory. -/
structure ExecOutcome where
  err : Option String
  stdout : String
  stderr : String
  createdFiles : List String
deriving Repr, DecidableEq

/-- Host-environment inputs of one `runCode` call: the generated uuid, the
`SHELL` environment variable, whether `mkdirSync` / `writeFileSync` throw (and
with which message), and the outcome of the spawned process. -/
structure Env where
  uniqueId : String
  shellEnv : Option String
  mkdirThrows : Option String
  writeThrows : Option String
  execOutcome : ExecOutcome
deriving Repr, DecidableEq

/-- Filesystem state visible to the engine: whether the temp directory exists
and the full paths of the files currently inside it. All paths the engine
touches live in the temp directory, so files elsewhere are not modelled. -/
structure FS where
  tempDirExists : Bool
  tempFiles : List String
deriving Repr, DecidableEq

/-- The `path.join(dir, name)` calls of the engine. -/
def pjoin (dir name : String) : String := dir ++ "/" ++ name

/-- JS `String.prototype.includes`: substring containment. -/
def jsIncludes (s pattern : String) : Bool := decide (pattern.toList <:+: s.toList)

/-- JS `a || b` on strings: the empty string is falsy. -/
def jsOr (a b : String) : String := if a = "" then b else a

/-- One step of the `rawCommand.replace` of every double quote: a quote becomes
backslash-quote, every other character is kept. -/
def escQuote (c : Char) : List Char := if c = '"' then ['\\', '"'] else [c]

/-- JS `rawCommand.replace` of every double quote by backslash-quote. -/
def escapeQuotes (s : String) : String := String.mk (s.toList.flatMap escQuote)

/-- The `process.env.SHELL || fallback` resolution of the default shell. -/
def resolveShell (shellEnv : Option String) : String :=
  jsOr (shellEnv.getD "") "/bin/zsh"

/-- The `commandToExecute` string: a login-mode shell invocation of the raw
command with its double quotes escaped. -/
def wrapCommand (shell raw : String) : String :=
  shell ++ " -l -c \"" ++ escapeQuotes raw ++ "\""

/-- JS `String.prototype.toLowerCase` on one character of the ASCII range
(all registered language ids are ASCII): the letters A-Z are lower-cased,
everything else is kept. -/
def lowerChar (c : Char) : Char :=
  if 'A' ≤ c ∧ c ≤ 'Z' then Char.ofNat (c.toNat + 32) else c

/-- JS `language.toLowerCase()` on the ASCII range. -/
def jsToLower (s : String) : String := String.mk (s.toList.map lowerChar)

/-- JS regex `\s` on the ASCII range: space, tab, newline, vertical tab, form
feed, carriage return. -/
def isJsSpace (c : Char) : Bool :=
  c == ' ' || c == '\t' || c == '\n' || c == '\x0b' || c == '\x0c' || c == '\r'

/-- JS `String.prototype.trim` on the ASCII range: strip leading and trailing
whitespace (the detector trims the newline off the resolved path). -/
def jsTrim (s : String) : String :=
  String.mk (((s.toList.dropWhile isJsSpace).reverse.dropWhile isJsSpace).reverse)

/-- JS regex word-ish class `[a-zA-Z0-9_]` of the class-name capture group. -/
def isWordChar (c : Char) : Bool := c.isAlpha || c.isDigit || c == '_'

/-- Match a literal character sequence at the head of the input, returning the
rest of the input. -/
def matchLit : List Char → List Char → Option (List Char)
  | [], cs => some cs
  | _ :: _, [] => none
  | p :: ps, c :: cs => if c = p then matchLit ps cs else none

/-- Greedily match one or more characters satisfying `f` at the head of the
input, returning the rest of the input. -/
def matchPlus (f : Char → Bool) : List Char → Option (List Char)
  | [] => none
  | c :: cs => if f c then some (cs.dropWhile f) else none

/-- Greedily capture a nonempty `[a-zA-Z0-9_]+` word at the head of the input. -/
def captureWord : List Char → Option String
  | [] => none
  | c :: cs => if isWordChar c then some (String.mk (c :: cs.takeWhile isWordChar)) else none

/-- Attempt the regex `public\s+class\s+([a-zA-Z0-9_]+)` at the head of the
input, returning the capture group. Greedy matching without backtracking is
faithful here: after `\s+` the next required character is a letter, which is
never whitespace. -/
def matchClassAt (cs : List Char) : Option String :=
  match matchLit "public".toList cs with
  | none => none
  | some cs1 =>
    match matchPlus isJsSpace cs1 with
    | none => none
    | some cs2 =>
      match matchLit "class".toList cs2 with
      | none => none
      | some cs3 =>
        match matchPlus isJsSpace cs3 with
        | none => none
        | some cs4 => captureWord cs4

/-- Leftmost-match scan of `code.match(/public\s+class\s+([a-zA-Z0-9_]+)/)`. -/
def findClassFrom : List Char → Option String
  | [] => none
  | c :: cs =>
    match matchClassAt (c :: cs) with
    | some w => some w
    | none => findClassFrom cs

/-- The class-name lookup of the java branch: the first match of
`public\s+class\s+([a-zA-Z0-9_]+)` in the source text, capture group 1. -/
def findClassName (code : String) : Option String := findClassFrom code.toList

/-- The error message of the java branch when no public class is declared. -/
def javaMissingClassMsg : String :=
  "Java code must contain a public class definition (e.g., public class Main)."

/-- The 24 spaces of source indentation embedded in the template literal of the
command-not-found remediation message. -/
def pad24 : String := "                        "

/-- The guided remediation message substituted when the underlying failure
message contains the text command not found. Built with the same nesting used
by the lemmas below: each chunk appended to the right of an occurrence of the
executable name. -/
def cmdNotFoundMsg (exe : String) : String :=
  "Error: '" ++ (exe ++ ("' command not found. Please ensure '" ++ (exe ++
    ("' is installed and accessible in your system's PATH.\n" ++ (pad24 ++
      ("\nIf it is installed, try running 'which " ++ (exe ++
        ("' in your terminal to find its path.\n" ++ (pad24 ++
          "\nThen, consider adding its directory to your shell's PATH (e.g., in ~/.zshrc or ~/.bashrc) and restarting Raycast.")))))))))

/-- The per-language data built by the switch before the try block. -/
structure Plan where
  filePath : String
  rawCommand : String
  cleanupFiles : List String
  executableCommand : String
deriving Repr, DecidableEq

/-- The `switch (language.toLowerCase())` of `runCode`: either an early
result (java source without a public class, or an unsupported language) or the
`Plan` used by the try block. -/
def langCase (tempDir language code uniqueId : String) : Sum CodeExecutionResult Plan :=
  let l := jsToLower language
  if l = "javascript" then
    let filePath := pjoin tempDir (uniqueId ++ ".js")
    .inr ⟨filePath, "node " ++ filePath, [filePath], "node"⟩
  else if l = "python" then
    let filePath := pjoin tempDir (uniqueId ++ ".py")
    .inr ⟨filePath, "python3 " ++ filePath, [filePath], "python3"⟩
  else if l = "go" then
    let filePath := pjoin tempDir (uniqueId ++ ".go")
    let goExecPath := pjoin tempDir uniqueId
    .inr ⟨filePath,
      "go build -o " ++ goExecPath ++ " " ++ filePath ++ " && " ++ goExecPath,
      [filePath, goExecPath], "go"⟩
  else if l = "java" then
    match findClassName code with
    | none => .inl ⟨"", "", some javaMissingClassMsg, ""⟩
    | some className =>
      let filePath := pjoin tempDir (className ++ ".java")
      .inr ⟨filePath,
        "javac " ++ filePath ++ " -d " ++ tempDir ++ " && java -cp " ++ tempDir ++ " " ++ className,
        [filePath, pjoin tempDir (className ++ ".class")], "java"⟩
  else .inl ⟨"", "", some ("Unsupported language: " ++ language), ""⟩

/-- The `existsSync` / `mkdirSync` step at the top of `runCode`, outside the
try block: an exception here escapes the function. -/
def ensureTempDir (mkdirThrows : Option String) (fs : FS) : Except String FS :=
  if fs.tempDirExists then .ok fs
  else
    match mkdirThrows with
    | some msg => .error msg
    | none => .ok { fs with tempDirExists := true }

/-- The finally block: unlink every tracked file that exists, then remove the
temp directory when `readdirSync` shows it empty; all cleanup failures are
swallowed (when the directory does not exist, `readdirSync` throws into the
local catch and nothing more happens). -/
def finallyCleanup (cleanupFiles : List String) (fs : FS) : FS :=
  let fs1 : FS := { fs with tempFiles := fs.tempFiles.filter (fun f => !cleanupFiles.contains f) }
  if fs1.tempDirExists && fs1.tempFiles.isEmpty then { fs1 with tempDirExists := false } else fs1

/-- The engine: `runCode(language, code)` under explicit host inputs. The
`Except.error` case models an exception escaping across the public boundary
(the promise rejecting). The mkdir step and the switch run before the try
block, so their early exits bypass the finally cleanup; every path inside the
try block funnels through `finallyCleanup`. -/
def runCode (tempDir language code : String) (env : Env) (fs0 : FS) :
    Except String (CodeExecutionResult × FS) :=
  match ensureTempDir env.mkdirThrows fs0 with
  | .error msg => .error msg
  | .ok fs1 =>
    match langCase tempDir language code env.uniqueId with
    | .inl earlyResult => .ok (earlyResult, fs1)
    | .inr plan =>
      match env.writeThrows with
      | some msg =>
        .ok (⟨"", "", some (jsOr msg "Unknown error during execution"), ""⟩,
          finallyCleanup plan.cleanupFiles fs1)
      | none =>
        match env.execOutcome.err with
        | none =>
          .ok (⟨env.execOutcome.stdout, env.execOutcome.stderr, none,
              wrapCommand (resolveShell env.shellEnv) plan.rawCommand⟩,
            finallyCleanup plan.cleanupFiles
              ⟨fs1.tempDirExists, env.execOutcome.createdFiles ++ plan.filePath :: fs1.tempFiles⟩)
        | some m =>
          .ok (⟨env.execOutcome.stdout, env.execOutcome.stderr,
              some (jsOr (if jsIncludes m "command not found" then
                  cmdNotFoundMsg plan.executableCommand else m)
                "Unknown error during execution"), ""⟩,
            finallyCleanup plan.cleanupFiles
              ⟨fs1.tempDirExists, env.execOutcome.createdFiles ++ plan.filePath :: fs1.tempFiles⟩)

/-- Outcome of one `exec` of a probe command during detection. -/
structure ProbeOutcome where
  err : Option String
  stdout : String
  stderr : String
deriving Repr, DecidableEq

/-- Record of one detected language. -/
structure DetectedLanguage where
  name : String
  value : String
  executablePath : String
deriving Repr, DecidableEq

/-- One entry of the fixed detection check list. -/
structure LanguageCheck where
  name : String
  value : String
  command : String
deriving Repr, DecidableEq

/-- The fixed check list of `detectInstalledLanguages`, in source order. -/
def languageChecks : List LanguageCheck :=
  [⟨"JavaScript", "javascript", "node"⟩,
   ⟨"Python", "python", "python3"⟩,
   ⟨"Go", "go", "go"⟩]

/-- The probe command string `findExecutable` builds for one command. -/
def probeCmd (shellEnv : Option String) (command : String) : String :=
  resolveShell shellEnv ++ " -l -c \"which " ++ command ++ "\""

/-- `findExecutable`: probes the login shell for the command and resolves the
trimmed stdout, or null when the callback received an error or any stderr
output at all was produced. -/
def findExecutable (shellEnv : Option String) (probe : String → ProbeOutcome)
    (command : String) : Option String :=
  if (probe (probeCmd shellEnv command)).err.isSome ||
      (probe (probeCmd shellEnv command)).stderr != "" then none
  else some (jsTrim (probe (probeCmd shellEnv command)).stdout)

/-- `detectInstalledLanguages`: probes each check in order and pushes an entry
when `findExecutable` returned a truthy (non-null and non-empty) path. -/
def detectInstalledLanguages (shellEnv : Option String)
    (probe : String → ProbeOutcome) : List DetectedLanguage :=
  languageChecks.foldl
    (fun detected lang =>
      match findExecutable shellEnv probe lang.command with
      | some p => if p ≠ "" then detected ++ [⟨lang.name, lang.value, p⟩] else detected
      | none => detected)
    []

/-- The spec-side per-check inclusion predicate detection is compared with:
one check is turned into a detected entry exactly when its probe resolved to a
truthy path. -/
def includeCheck (shellEnv : Option String) (probe : String → ProbeOutcome)
    (lang : LanguageCheck) : Option DetectedLanguage :=
  match findExecutable shellEnv probe lang.command with
  | some p => if p = "" then none else some ⟨lang.name, lang.value, p⟩
  | none => none

/-! ### Helper lemmas -/

theorem jsIncludes_iff {s pattern : String} :
    jsIncludes s pattern = true ↔ pattern.toList <:+: s.toList := by
  simp [jsIncludes]

theorem toList_append (a b : String) : (a ++ b).toList = a.toList ++ b.toList := by
  cases a; cases b; simp [String.toList, String.data_append]

theorem jsIncludes_appendRight {t sub : String} (s : String)
    (h : jsIncludes t sub = true) : jsIncludes (s ++ t) sub = true := by
  rw [jsIncludes_iff] at h ⊢
  obtain ⟨u, v, huv⟩ := h
  refine ⟨s.toList ++ u, v, ?_⟩
  rw [toList_append, ← huv]
  simp [List.append_assoc]

theorem jsIncludes_appendLeft {s sub : String} (t : String)
    (h : jsIncludes s sub = true) : jsIncludes (s ++ t) sub = true := by
  rw [jsIncludes_iff] at h ⊢
  obtain ⟨u, v, huv⟩ := h
  refine ⟨u, v ++ t.toList, ?_⟩
  rw [toList_append, ← huv]
  simp [List.append_assoc]

theorem jsIncludes_self (s : String) : jsIncludes s s = true := by
  rw [jsIncludes_iff]

theorem jsIncludes_middle (a b c : String) : jsIncludes (a ++ (b ++ c)) b = true :=
  jsIncludes_appendRight a (jsIncludes_appendLeft c (jsIncludes_self b))

theorem finallyCleanup_tempFiles (cleanupFiles : List String) (fs : FS) :
    (finallyCleanup cleanupFiles fs).tempFiles =
      fs.tempFiles.filter (fun f => !cleanupFiles.contains f) := by
  unfold finallyCleanup
  dsimp only
  split <;> rfl

theorem finallyCleanup_dirExists (cleanupFiles : List String) (fs : FS)
    (h : fs.tempDirExists = true) :
    (finallyCleanup cleanupFiles fs).tempDirExists =
      !(finallyCleanup cleanupFiles fs).tempFiles.isEmpty := by
  unfold finallyCleanup
  dsimp only
  rw [h]
  cases hE : (fs.tempFiles.filter (fun f => !cleanupFiles.contains f)).isEmpty
  · rw [if_neg (by simp only [Bool.true_and, hE]; decide)]
    rw [hE]
    rfl
  · rw [if_pos (by simp only [Bool.true_and, hE])]
    rw [hE]
    rfl

theorem mem_cleanup_filter {cleanupFiles l : List String} {f : String} :
    f ∈ l.filter (fun g => !cleanupFiles.contains g) ↔ f ∈ l ∧ f ∉ cleanupFiles := by
  simp [List.mem_filter]

theorem langCase_filePath_mem {tempDir language code uniqueId : String} {plan : Plan}
    (h : langCase tempDir language code uniqueId = .inr plan) :
    plan.filePath ∈ plan.cleanupFiles := by
  simp only [langCase] at h
  split_ifs at h
  · cases h; simp
  · cases h; simp
  · cases h; simp
  · revert h
    cases findClassName code with
    | none => intro h; cases h
    | some cn => intro h; cases h; simp

theorem runCode_ok_dir {tempDir language code : String} {env : Env} {fs0 : FS}
    {p : CodeExecutionResult × FS}
    (h : runCode tempDir language code env fs0 = .ok p) :
    fs0.tempDirExists = true ∨ env.mkdirThrows = none := by
  by_contra hc
  push_neg at hc
  obtain ⟨h1, h2⟩ := hc
  simp only [ne_eq, Bool.not_eq_true] at h1
  cases hm : env.mkdirThrows with
  | none => exact h2 hm
  | some msg =>
    unfold runCode ensureTempDir at h
    rw [h1, hm] at h
    simp at h

theorem ensureTempDir_ok (mkdirThrows : Option String) (fs0 : FS)
    (h : fs0.tempDirExists = true ∨ mkdirThrows = none) :
    ensureTempDir mkdirThrows fs0 = .ok ⟨true, fs0.tempFiles⟩ := by
  obtain ⟨d, files⟩ := fs0
  cases d
  · have h : mkdirThrows = none := by
      rcases h with h | h
      · exact absurd h (by simp)
      · exact h
    unfold ensureTempDir
    rw [h]
    rfl
  · rfl

theorem runCode_plan_eq {tempDir language code : String} {env : Env} {fs0 : FS} {plan : Plan}
    (hplan : langCase tempDir language code env.uniqueId = .inr plan)
    (hmk : fs0.tempDirExists = true ∨ env.mkdirThrows = none) :
    runCode tempDir language code env fs0 =
      match env.writeThrows with
      | some msg =>
        .ok (⟨"", "", some (jsOr msg "Unknown error during execution"), ""⟩,
          finallyCleanup plan.cleanupFiles ⟨true, fs0.tempFiles⟩)
      | none =>
        match env.execOutcome.err with
        | none =>
          .ok (⟨env.execOutcome.stdout, env.execOutcome.stderr, none,
              wrapCommand (resolveShell env.shellEnv) plan.rawCommand⟩,
            finallyCleanup plan.cleanupFiles
              ⟨true, env.execOutcome.createdFiles ++ plan.filePath :: fs0.tempFiles⟩)
        | some m =>
          .ok (⟨env.execOutcome.stdout, env.execOutcome.stderr,
              some (jsOr (if jsIncludes m "command not found" then
                  cmdNotFoundMsg plan.executableCommand else m)
                "Unknown error during execution"), ""⟩,
            finallyCleanup plan.cleanupFiles
              ⟨true, env.execOutcome.createdFiles ++ plan.filePath :: fs0.tempFiles⟩) := by
  unfold runCode
  rw [ensureTempDir_ok env.mkdirThrows fs0 hmk, hplan]

theorem finallyCleanup_post (uid : String) (cleanup fs0files created L : List String)
    (hL : ∀ f ∈ L, f ∈ cleanup ∨ f ∈ fs0files ∨ f ∈ created) :
    (∀ f ∈ cleanup, f ∉ (finallyCleanup cleanup ⟨true, L⟩).tempFiles) ∧
    (∀ f ∈ (finallyCleanup cleanup ⟨true, L⟩).tempFiles, f ∈ fs0files ∨ f ∈ created) ∧
    (finallyCleanup cleanup ⟨true, L⟩).tempDirExists =
      !(finallyCleanup cleanup ⟨true, L⟩).tempFiles.isEmpty ∧
    ((∀ f ∈ fs0files, jsIncludes f uid = false) →
      (∀ f ∈ created, jsIncludes f uid = true → f ∈ cleanup) →
      ∀ f ∈ (finallyCleanup cleanup ⟨true, L⟩).tempFiles, jsIncludes f uid = false) := by
  have hmem : ∀ f, f ∈ (finallyCleanup cleanup ⟨true, L⟩).tempFiles ↔ f ∈ L ∧ f ∉ cleanup := by
    intro f
    rw [finallyCleanup_tempFiles]
    exact mem_cleanup_filter
  refine ⟨?_, ?_, ?_, ?_⟩
  · intro f hf hmem'
    exact ((hmem f).mp hmem').2 hf
  · intro f hf
    obtain ⟨hfL, hfc⟩ := (hmem f).mp hf
    rcases hL f hfL with h | h | h
    · exact absurd h hfc
    · exact Or.inl h
    · exact Or.inr h
  · exact finallyCleanup_dirExists cleanup ⟨true, L⟩ rfl
  · intro h1 h2 f hf
    obtain ⟨hfL, hfc⟩ := (hmem f).mp hf
    rcases hL f hfL with h | h | h
    · exact absurd h hfc
    · exact h1 f h
    · cases hb : jsIncludes f uid
      · rfl
      · exact absurd (h2 f h hb) hfc

/-! ### Concrete environments used by counterexamples and witnesses -/

/-- A benign host environment: a uuid, no SHELL variable, no filesystem
exceptions, and a silent zero-exit process. -/
def envPlain : Env := ⟨"uid-0002", none, none, none, ⟨none, "", "", []⟩⟩

/-- A host environment in which `fs.mkdirSync` throws. -/
def envMkdirFail : Env :=
  ⟨"uid-0001", none, some "EACCES: permission denied, mkdir", none, ⟨none, "", "", []⟩⟩

/-- A host environment for a failing go pipeline: the build step created the
binary named by the uuid, then the process failed. -/
def envGoFail : Env :=
  ⟨"cafe-7", some "/bin/bash", none, none,
    ⟨some "go failed", "o", "e", ["/ext/temp/cafe-7"]⟩⟩

/-- The plan the go branch builds under `envGoFail` in `/ext/temp`. -/
def planGo : Plan :=
  ⟨"/ext/temp/cafe-7.go",
    "go build -o /ext/temp/cafe-7 /ext/temp/cafe-7.go && /ext/temp/cafe-7",
    ["/ext/temp/cafe-7.go", "/ext/temp/cafe-7"], "go"⟩

/-- A java source with a public class, braces included. -/
def javaSrcMain : String := "public class Main \x7b\x7d"

/-! ### Claim theorems -/

/-- C1: every `execute` call that reaches the file-writing stage deletes every
tracked artifact file before returning, on every exit path (normal exit,
non-zero exit or timeout, and an exception thrown during the file write); the
temp directory is removed exactly when it ends up empty; and, provided the
initial state holds no file named with the fresh unique identifier and every
pipeline-created file named with it is tracked, no file named with the unique
identifier remains on disk. -/
theorem runCode_cleanup_invariant (tempDir language code : String) (env : Env) (fs0 : FS)
    (plan : Plan) (r : CodeExecutionResult) (fs1 : FS)
    (hplan : langCase tempDir language code env.uniqueId = .inr plan)
    (hrun : runCode tempDir language code env fs0 = .ok (r, fs1)) :
    (∀ f ∈ plan.cleanupFiles, f ∉ fs1.tempFiles) ∧
    (∀ f ∈ fs1.tempFiles, f ∈ fs0.tempFiles ∨ f ∈ env.execOutcome.createdFiles) ∧
    fs1.tempDirExists = !fs1.tempFiles.isEmpty ∧
    ((∀ f ∈ fs0.tempFiles, jsIncludes f env.uniqueId = false) →
      (∀ f ∈ env.execOutcome.createdFiles,
        jsIncludes f env.uniqueId = true → f ∈ plan.cleanupFiles) →
      ∀ f ∈ fs1.tempFiles, jsIncludes f env.uniqueId = false) := by
  have hmk := runCode_ok_dir hrun
  have hfp := langCase_filePath_mem hplan
  have hLfull : ∀ f ∈ env.execOutcome.createdFiles ++ plan.filePath :: fs0.tempFiles,
      f ∈ plan.cleanupFiles ∨ f ∈ fs0.tempFiles ∨ f ∈ env.execOutcome.createdFiles := by
    intro f hf
    rcases List.mem_append.mp hf with h | h
    · exact Or.inr (Or.inr h)
    · rcases List.mem_cons.mp h with h | h
      · left
        rw [h]
        exact hfp
      · exact Or.inr (Or.inl h)
  cases hW : env.writeThrows with
  | some msg =>
    have heval : runCode tempDir language code env fs0 =
        .ok (⟨"", "", some (jsOr msg "Unknown error during execution"), ""⟩,
          finallyCleanup plan.cleanupFiles ⟨true, fs0.tempFiles⟩) := by
      rw [runCode_plan_eq hplan hmk, hW]
    rw [heval] at hrun
    simp only [Except.ok.injEq, Prod.mk.injEq] at hrun
    obtain ⟨hr, hfs⟩ := hrun
    subst hfs
    exact finallyCleanup_post env.uniqueId plan.cleanupFiles fs0.tempFiles
      env.execOutcome.createdFiles fs0.tempFiles (fun f hf => Or.inr (Or.inl hf))
  | none =>
    cases hO : env.execOutcome.err with
    | none =>
      have heval : runCode tempDir language code env fs0 =
          .ok (⟨env.execOutcome.stdout, env.execOutcome.stderr, none,
              wrapCommand (resolveShell env.shellEnv) plan.rawCommand⟩,
            finallyCleanup plan.cleanupFiles
              ⟨true, env.execOutcome.createdFiles ++ plan.filePath :: fs0.tempFiles⟩) := by
        rw [runCode_plan_eq hplan hmk, hW, hO]
      rw [heval] at hrun
      simp only [Except.ok.injEq, Prod.mk.injEq] at hrun
      obtain ⟨hr, hfs⟩ := hrun
      subst hfs
      exact finallyCleanup_post env.uniqueId plan.cleanupFiles fs0.tempFiles
        env.execOutcome.createdFiles
        (env.execOutcome.createdFiles ++ plan.filePath :: fs0.tempFiles) hLfull
    | some m =>
      have heval : runCode tempDir language code env fs0 =
          .ok (⟨env.execOutcome.stdout, env.execOutcome.stderr,
              some (jsOr (if jsIncludes m "command not found" then
                  cmdNotFoundMsg plan.executableCommand else m)
                "Unknown error during execution"), ""⟩,
            finallyCleanup plan.cleanupFiles
              ⟨true, env.execOutcome.createdFiles ++ plan.filePath :: fs0.tempFiles⟩) := by
        rw [runCode_plan_eq hplan hmk, hW, hO]
      rw [heval] at hrun
      simp only [Except.ok.injEq, Prod.mk.injEq] at hrun
      obtain ⟨hr, hfs⟩ := hrun
      subst hfs
      exact finallyCleanup_post env.uniqueId plan.cleanupFiles fs0.tempFiles
        env.execOutcome.createdFiles
        (env.execOutcome.createdFiles ++ plan.filePath :: fs0.tempFiles) hLfull

/-- C1 witness: the cleanup invariant at a concrete failing go execution with
a pre-existing unrelated file, a written source file and a created binary. -/
theorem runCode_cleanup_invariant_witness :
    (∀ f ∈ planGo.cleanupFiles, f ∉ (FS.mk true ["/ext/temp/other.txt"]).tempFiles) ∧
    (∀ f ∈ (FS.mk true ["/ext/temp/other.txt"]).tempFiles,
      f ∈ (FS.mk true ["/ext/temp/other.txt"]).tempFiles ∨
        f ∈ envGoFail.execOutcome.createdFiles) ∧
    (FS.mk true ["/ext/temp/other.txt"]).tempDirExists =
      !(FS.mk true ["/ext/temp/other.txt"]).tempFiles.isEmpty ∧
    ((∀ f ∈ (FS.mk true ["/ext/temp/other.txt"]).tempFiles,
        jsIncludes f envGoFail.uniqueId = false) →
      (∀ f ∈ envGoFail.execOutcome.createdFiles,
        jsIncludes f envGoFail.uniqueId = true → f ∈ planGo.cleanupFiles) →
      ∀ f ∈ (FS.mk true ["/ext/temp/other.txt"]).tempFiles,
        jsIncludes f envGoFail.uniqueId = false) :=
  runCode_cleanup_invariant "/ext/temp" "go" "package main" envGoFail
    ⟨true, ["/ext/temp/other.txt"]⟩ planGo ⟨"o", "e", some "go failed", ""⟩
    ⟨true, ["/ext/temp/other.txt"]⟩ rfl rfl

/-- C2: on every call that spawns a process (the write succeeded), the result's
error field is null exactly when the process exited with status zero, and
whatever stdout and stderr the process emitted is preserved verbatim in the
result, also on failure. -/
theorem runCode_error_iff_zero_exit (tempDir language code : String) (env : Env) (fs0 : FS)
    (plan : Plan) (r : CodeExecutionResult) (fs1 : FS)
    (hplan : langCase tempDir language code env.uniqueId = .inr plan)
    (hwrite : env.writeThrows = none)
    (hrun : runCode tempDir language code env fs0 = .ok (r, fs1)) :
    (r.error = none ↔ env.execOutcome.err = none) ∧
    r.stdout = env.execOutcome.stdout ∧ r.stderr = env.execOutcome.stderr := by
  have hmk := runCode_ok_dir hrun
  cases hO : env.execOutcome.err with
  | none =>
    have heval : runCode tempDir language code env fs0 =
        .ok (⟨env.execOutcome.stdout, env.execOutcome.stderr, none,
            wrapCommand (resolveShell env.shellEnv) plan.rawCommand⟩,
          finallyCleanup plan.cleanupFiles
            ⟨true, env.execOutcome.createdFiles ++ plan.filePath :: fs0.tempFiles⟩) := by
      rw [runCode_plan_eq hplan hmk, hwrite, hO]
    rw [heval] at hrun
    simp only [Except.ok.injEq, Prod.mk.injEq] at hrun
    obtain ⟨hr, hfs⟩ := hrun
    subst hr
    simp
  | some m =>
    have heval : runCode tempDir language code env fs0 =
        .ok (⟨env.execOutcome.stdout, env.execOutcome.stderr,
            some (jsOr (if jsIncludes m "command not found" then
                cmdNotFoundMsg plan.executableCommand else m)
              "Unknown error during execution"), ""⟩,
          finallyCleanup plan.cleanupFiles
            ⟨true, env.execOutcome.createdFiles ++ plan.filePath :: fs0.tempFiles⟩) := by
      rw [runCode_plan_eq hplan hmk, hwrite, hO]
    rw [heval] at hrun
    simp only [Except.ok.injEq, Prod.mk.injEq] at hrun
    obtain ⟨hr, hfs⟩ := hrun
    subst hr
    simp

/-- C2 witness: the error-iff-exit-zero theorem at a concrete failing go
execution whose partial output is preserved in the result. -/
theorem runCode_error_iff_zero_exit_witness :
    ((CodeExecutionResult.mk "o" "e" (some "go failed") "").error = none ↔
      envGoFail.execOutcome.err = none) ∧
    (CodeExecutionResult.mk "o" "e" (some "go failed") "").stdout =
      envGoFail.execOutcome.stdout ∧
    (CodeExecutionResult.mk "o" "e" (some "go failed") "").stderr =
      envGoFail.execOutcome.stderr :=
  runCode_error_iff_zero_exit "/ext/temp" "go" "package main" envGoFail ⟨true, []⟩
    planGo ⟨"o", "e", some "go failed", ""⟩ ⟨false, []⟩ rfl rfl rfl

/-- C5 counterexample: for the java branch the artifact names do not embed the
freshly generated unique identifier: they are derived from the declared public
class name alone, so two calls with different identifiers but the same class
name build identical plans and name the same files. -/
theorem java_artifacts_lack_uniqueId :
    langCase "/ext/temp" "java" javaSrcMain "4f9a-uuid-1111" =
      .inr ⟨"/ext/temp/Main.java",
        "javac /ext/temp/Main.java -d /ext/temp && java -cp /ext/temp Main",
        ["/ext/temp/Main.java", "/ext/temp/Main.class"], "java"⟩ ∧
    jsIncludes "/ext/temp/Main.java" "4f9a-uuid-1111" = false ∧
    langCase "/ext/temp" "java" javaSrcMain "4f9a-uuid-1111" =
      langCase "/ext/temp" "java" javaSrcMain "bbbb-uuid-2222" :=
  ⟨rfl, by decide, rfl⟩

/-- C5 (amended): for the javascript, python and go branches every artifact
file name (the temporary source file and, for go, the compiled binary) embeds
the unique identifier generated for the call; the java branch instead names its
artifacts after the declared public class name. -/
theorem artifact_names_embed_uniqueId (tempDir language code uniqueId : String) (plan : Plan)
    (hl : jsToLower language = "javascript" ∨ jsToLower language = "python" ∨
      jsToLower language = "go")
    (hplan : langCase tempDir language code uniqueId = .inr plan) :
    ∀ f ∈ plan.cleanupFiles, jsIncludes f uniqueId = true := by
  have hIncl : ∀ ext, jsIncludes (pjoin tempDir (uniqueId ++ ext)) uniqueId = true := by
    intro ext
    unfold pjoin
    exact jsIncludes_middle (tempDir ++ "/") uniqueId ext
  have hIncl2 : jsIncludes (pjoin tempDir uniqueId) uniqueId = true := by
    unfold pjoin
    exact jsIncludes_appendRight (tempDir ++ "/") (jsIncludes_self uniqueId)
  rcases hl with h | h | h
  · simp only [langCase, h] at hplan
    rw [if_pos trivial] at hplan
    cases hplan
    intro f hf
    rw [List.mem_singleton.mp hf]
    exact hIncl ".js"
  · simp only [langCase, h] at hplan
    rw [if_pos trivial] at hplan
    cases hplan
    intro f hf
    rw [List.mem_singleton.mp hf]
    exact hIncl ".py"
  · simp only [langCase, h] at hplan
    rw [if_pos trivial] at hplan
    cases hplan
    intro f hf
    rcases List.mem_cons.mp hf with hf | hf
    · rw [hf]
      exact hIncl ".go"
    · rw [List.mem_singleton.mp hf]
      exact hIncl2

/-- C5 witness: the amended naming theorem at a concrete go call, evaluated on
both tracked artifacts (source file and compiled binary). -/
theorem artifact_names_embed_uniqueId_witness :
    jsIncludes "/ext/temp/cafe-7.go" "cafe-7" = true ∧
    jsIncludes "/ext/temp/cafe-7" "cafe-7" = true :=
  ⟨artifact_names_embed_uniqueId "/ext/temp" "go" "package main" "cafe-7" planGo
      (Or.inr (Or.inr (by decide))) rfl "/ext/temp/cafe-7.go" (by decide),
    artifact_names_embed_uniqueId "/ext/temp" "go" "package main" "cafe-7" planGo
      (Or.inr (Or.inr (by decide))) rfl "/ext/temp/cafe-7" (by decide)⟩

/-- C6: for the java branch, the engine pattern-matches the source for a
declared public class name; with a match the source file is named after that
class (with the matching class file tracked), and without a match the call
returns the missing-public-entry-type error before any file write, leaving the
file list untouched. -/
theorem runCode_java_entry_type (tempDir language code : String) (env : Env) (fs0 : FS)
    (hl : jsToLower language = "java")
    (hmk : fs0.tempDirExists = true ∨ env.mkdirThrows = none) :
    (findClassName code = none →
      runCode tempDir language code env fs0 =
        .ok (⟨"", "", some javaMissingClassMsg, ""⟩, ⟨true, fs0.tempFiles⟩)) ∧
    (∀ cn plan, findClassName code = some cn →
      langCase tempDir language code env.uniqueId = .inr plan →
      plan.filePath = pjoin tempDir (cn ++ ".java") ∧
      plan.cleanupFiles = [pjoin tempDir (cn ++ ".java"), pjoin tempDir (cn ++ ".class")]) := by
  constructor
  · intro hnone
    have hL : langCase tempDir language code env.uniqueId =
        .inl ⟨"", "", some javaMissingClassMsg, ""⟩ := by
      simp only [langCase, hl, hnone]
      rfl
    unfold runCode
    rw [ensureTempDir_ok env.mkdirThrows fs0 hmk, hL]
  · intro cn plan hsome hplan
    simp only [langCase, hl, hsome, if_true] at hplan
    cases hplan
    exact ⟨rfl, rfl⟩

/-- C6 witness: the java entry-type theorem at a concrete call whose source
declares no public class: the call returns the missing-entry-type error with
the file list unchanged, and a call on a source with a public class names the
file after the class. -/
theorem runCode_java_entry_type_witness :
    ((findClassName "class X" = none →
      runCode "/ext/temp" "Java" "class X" envPlain ⟨true, ["/ext/temp/k.txt"]⟩ =
        .ok (⟨"", "", some javaMissingClassMsg, ""⟩, ⟨true, ["/ext/temp/k.txt"]⟩)) ∧
    (∀ cn plan, findClassName "class X" = some cn →
      langCase "/ext/temp" "Java" "class X" envPlain.uniqueId = .inr plan →
      plan.filePath = pjoin "/ext/temp" (cn ++ ".java") ∧
      plan.cleanupFiles =
        [pjoin "/ext/temp" (cn ++ ".java"), pjoin "/ext/temp" (cn ++ ".class")])) :=
  runCode_java_entry_type "/ext/temp" "Java" "class X" envPlain ⟨true, ["/ext/temp/k.txt"]⟩
    (by decide) (Or.inl rfl)

/-- C3 counterexample: `execute` can throw across its public boundary. The
`mkdirSync` call that prepares the temp directory runs before the try block,
so a filesystem error while creating the directory rejects the promise instead
of being captured in the result's error field. -/
theorem runCode_mkdir_exception_escapes :
    runCode "/ext/temp" "javascript" "console.log(1)" envMkdirFail ⟨false, []⟩ =
      .error "EACCES: permission denied, mkdir" := rfl

/-- C3 (amended): once the temp directory exists (or its creation succeeds),
`execute` never throws: for every language, source text, write outcome and
process outcome, the call returns a result, with every failure captured in the
error field. -/
theorem runCode_no_throw_after_tempdir (tempDir language code : String) (env : Env) (fs0 : FS)
    (h : fs0.tempDirExists = true ∨ env.mkdirThrows = none) :
    ∃ p, runCode tempDir language code env fs0 = .ok p := by
  unfold runCode
  rw [ensureTempDir_ok env.mkdirThrows fs0 h]
  cases hL : langCase tempDir language code env.uniqueId with
  | inl r => exact ⟨_, rfl⟩
  | inr plan =>
    cases hW : env.writeThrows with
    | some m => exact ⟨_, rfl⟩
    | none =>
      cases hO : env.execOutcome.err with
      | none => exact ⟨_, rfl⟩
      | some m => exact ⟨_, rfl⟩

/-- C3 witness: the amended no-throw theorem applied at a concrete call. -/
theorem runCode_no_throw_after_tempdir_witness :
    ∃ p, runCode "/ext/temp" "python" "print(1)" envPlain ⟨true, []⟩ = .ok p :=
  runCode_no_throw_after_tempdir "/ext/temp" "python" "print(1)" envPlain ⟨true, []⟩
    (Or.inl rfl)

/-- C4 counterexample: an unsupported-language call is not free of filesystem
interaction. Starting from a state without the temp directory, the call
returns the unsupported-language result but leaves the temp directory created
on disk, because the mkdir step runs before the language check and the early
return bypasses cleanup. -/
theorem runCode_unsupported_creates_tempdir_ce :
    runCode "/ext/temp" "brainfudge" "x" envPlain ⟨false, []⟩ =
      .ok (⟨"", "", some "Unsupported language: brainfudge", ""⟩, ⟨true, []⟩) := rfl

/-- C4 (amended): a call with an unknown language id returns an immediate
result whose error states the language is unsupported; no file is created or
written (the file list is unchanged), but the shared temp directory is created
when absent, since directory creation precedes the language check. -/
theorem runCode_unsupported_result (tempDir language code : String) (env : Env) (fs0 : FS)
    (hmk : fs0.tempDirExists = true ∨ env.mkdirThrows = none)
    (h1 : jsToLower language ≠ "javascript") (h2 : jsToLower language ≠ "python")
    (h3 : jsToLower language ≠ "go") (h4 : jsToLower language ≠ "java") :
    runCode tempDir language code env fs0 =
      .ok (⟨"", "", some ("Unsupported language: " ++ language), ""⟩,
        ⟨true, fs0.tempFiles⟩) := by
  have hL : langCase tempDir language code env.uniqueId =
      .inl ⟨"", "", some ("Unsupported language: " ++ language), ""⟩ := by
    simp only [langCase]
    rw [if_neg h1, if_neg h2, if_neg h3, if_neg h4]
  unfold runCode
  rw [ensureTempDir_ok env.mkdirThrows fs0 hmk, hL]

/-- C4 witness: the amended unsupported-language theorem at a concrete call,
showing the unchanged file list and the (kept) temp directory. -/
theorem runCode_unsupported_result_witness :
    runCode "/ext/temp" "cobol" "x" envPlain ⟨true, ["/ext/temp/keep.txt"]⟩ =
      .ok (⟨"", "", some ("Unsupported language: " ++ "cobol"), ""⟩,
        ⟨true, ["/ext/temp/keep.txt"]⟩) :=
  runCode_unsupported_result "/ext/temp" "cobol" "x" envPlain ⟨true, ["/ext/temp/keep.txt"]⟩
    (Or.inl rfl) (by decide) (by decide) (by decide) (by decide)

/-- C9 counterexample: `execute(languageId, src)` does not always behave
identically to `execute(lowercase(languageId), src)`: for an unsupported id
the error message embeds the identifier in its original casing. -/
theorem runCode_language_case_matters :
    runCode "/ext/temp" "FOO" "x" envPlain ⟨true, []⟩ ≠
      runCode "/ext/temp" "foo" "x" envPlain ⟨true, []⟩ := by
  intro hEq
  have h1 : runCode "/ext/temp" "FOO" "x" envPlain ⟨true, []⟩ =
      .ok (⟨"", "", some "Unsupported language: FOO", ""⟩, ⟨true, []⟩) := rfl
  have h2 : runCode "/ext/temp" "foo" "x" envPlain ⟨true, []⟩ =
      .ok (⟨"", "", some "Unsupported language: foo", ""⟩, ⟨true, []⟩) := rfl
  rw [h1, h2] at hEq
  simp at hEq

/-- C9 (amended): whenever the lowercased language id is one of the supported
ids, `execute(languageId, src)` behaves identically to
`execute(lowercase(languageId), src)`; only the unsupported-language error
message distinguishes the original casing. -/
theorem runCode_case_insensitive_supported (tempDir language code : String) (env : Env)
    (fs0 : FS)
    (hl : jsToLower language = "javascript" ∨ jsToLower language = "python" ∨
      jsToLower language = "go" ∨ jsToLower language = "java") :
    runCode tempDir language code env fs0 =
      runCode tempDir (jsToLower language) code env fs0 := by
  have key : langCase tempDir language code env.uniqueId =
      langCase tempDir (jsToLower language) code env.uniqueId := by
    rcases hl with h | h | h | h <;>
      simp only [langCase] <;>
      rw [h] <;>
      simp [show jsToLower "javascript" = "javascript" from by decide,
        show jsToLower "python" = "python" from by decide,
        show jsToLower "go" = "go" from by decide,
        show jsToLower "java" = "java" from by decide]
  unfold runCode
  rw [key]

/-- C9 witness: the amended case-insensitivity theorem at a concrete call with
a mixed-case supported language id. -/
theorem runCode_case_insensitive_supported_witness :
    runCode "/ext/temp" "PyThOn" "print(1)" envPlain ⟨true, []⟩ =
      runCode "/ext/temp" (jsToLower "PyThOn") "print(1)" envPlain ⟨true, []⟩ :=
  runCode_case_insensitive_supported "/ext/temp" "PyThOn" "print(1)" envPlain ⟨true, []⟩
    (Or.inr (Or.inl (by decide)))

theorem flatMap_escQuote_id (l : List Char) (h : ∀ c ∈ l, c ≠ '"') :
    l.flatMap escQuote = l := by
  induction l with
  | nil => rfl
  | cons c cs ih =>
    rw [List.flatMap_cons, ih (fun x hx => h x (List.mem_cons_of_mem c hx))]
    unfold escQuote
    rw [if_neg (h c (List.mem_cons_self c cs))]
    rfl

theorem escapeQuotes_id (s : String) (h : ∀ c ∈ s.toList, c ≠ '"') : escapeQuotes s = s := by
  obtain ⟨d⟩ := s
  unfold escapeQuotes
  exact congrArg String.mk (flatMap_escQuote_id d h)

theorem resolveShell_some {s : String} (h : s ≠ "") : resolveShell (some s) = s := by
  unfold resolveShell jsOr
  simp [h]

theorem append_left_ne_empty (a b : String) (ha : a ≠ "") : a ++ b ≠ "" := by
  obtain ⟨d⟩ := a
  intro h
  have h2 : (String.mk d ++ b).toList = [] := by
    rw [h]
    rfl
  rw [toList_append] at h2
  have h3 := (List.append_eq_nil.mp h2).1
  apply ha
  show String.mk d = ""
  rw [show d = ([] : List Char) from h3]

theorem cmdNotFoundMsg_ne_empty (exe : String) : cmdNotFoundMsg exe ≠ "" := by
  unfold cmdNotFoundMsg
  exact append_left_ne_empty _ _ (by decide)

theorem cmdNotFoundMsg_includes_exe (exe : String) :
    jsIncludes (cmdNotFoundMsg exe) exe = true := by
  unfold cmdNotFoundMsg
  exact jsIncludes_middle "Error: '" exe _

theorem cmdNotFoundMsg_includes_PATH (exe : String) :
    jsIncludes (cmdNotFoundMsg exe) "PATH" = true := by
  unfold cmdNotFoundMsg
  apply jsIncludes_appendRight
  apply jsIncludes_appendRight
  apply jsIncludes_appendRight
  apply jsIncludes_appendRight
  apply jsIncludes_appendLeft
  decide

/-- A host environment for a successful go pipeline under SHELL=/bin/bash. -/
def envGoOk : Env :=
  ⟨"cafe-9", some "/bin/bash", none, none, ⟨none, "ok", "", ["/ext/temp/cafe-9"]⟩⟩

/-- The plan the go branch builds under `envGoOk` in `/ext/temp`. -/
def planGo9 : Plan :=
  ⟨"/ext/temp/cafe-9.go",
    "go build -o /ext/temp/cafe-9 /ext/temp/cafe-9.go && /ext/temp/cafe-9",
    ["/ext/temp/cafe-9.go", "/ext/temp/cafe-9"], "go"⟩

/-- A host environment whose spawned process failed with a message containing
the text command not found. -/
def envNodeMissing : Env :=
  ⟨"cafe-3", none, none, none, ⟨some "zsh:1: command not found: node", "", "", []⟩⟩

/-- The plan the javascript branch builds under `envNodeMissing`. -/
def planJs3 : Plan :=
  ⟨"/ext/temp/cafe-3.js", "node /ext/temp/cafe-3.js", ["/ext/temp/cafe-3.js"], "node"⟩

/-- C7: the executed command is built per language: a single run command over
the source file for javascript and python, a compile-then-run conjunction
joined by && for go and java with the intermediate artifact tracked for
cleanup; the raw command is then wrapped as a login-mode invocation of the
shell from the SHELL environment variable (hardcoded /bin/zsh fallback) with
every double quote of the raw command escaped before embedding. -/
theorem runCode_command_construction (tempDir language code : String) (env : Env) (fs0 : FS)
    (plan : Plan) (r : CodeExecutionResult) (fs1 : FS)
    (hplan : langCase tempDir language code env.uniqueId = .inr plan)
    (hwrite : env.writeThrows = none)
    (hexec : env.execOutcome.err = none)
    (hrun : runCode tempDir language code env fs0 = .ok (r, fs1)) :
    r.command =
      resolveShell env.shellEnv ++ " -l -c \"" ++ escapeQuotes plan.rawCommand ++ "\"" ∧
    (jsToLower language = "javascript" → plan.rawCommand = "node " ++ plan.filePath) ∧
    (jsToLower language = "python" → plan.rawCommand = "python3 " ++ plan.filePath) ∧
    (jsToLower language = "go" →
      plan.rawCommand = "go build -o " ++ pjoin tempDir env.uniqueId ++ " " ++
        plan.filePath ++ " && " ++ pjoin tempDir env.uniqueId ∧
      pjoin tempDir env.uniqueId ∈ plan.cleanupFiles) ∧
    (∀ cn, jsToLower language = "java" → findClassName code = some cn →
      plan.rawCommand = "javac " ++ plan.filePath ++ " -d " ++ tempDir ++
        " && java -cp " ++ tempDir ++ " " ++ cn ∧
      pjoin tempDir (cn ++ ".class") ∈ plan.cleanupFiles) ∧
    (∀ s, (∀ c ∈ s.toList, c ≠ '"') → escapeQuotes s = s) ∧
    escapeQuotes "\"" = "\\\"" ∧
    (∀ s, s ≠ "" → resolveShell (some s) = s) ∧
    resolveShell none = "/bin/zsh" := by
  have hmk := runCode_ok_dir hrun
  have heval : runCode tempDir language code env fs0 =
      .ok (⟨env.execOutcome.stdout, env.execOutcome.stderr, none,
          wrapCommand (resolveShell env.shellEnv) plan.rawCommand⟩,
        finallyCleanup plan.cleanupFiles
          ⟨true, env.execOutcome.createdFiles ++ plan.filePath :: fs0.tempFiles⟩) := by
    rw [runCode_plan_eq hplan hmk, hwrite, hexec]
  rw [heval] at hrun
  simp only [Except.ok.injEq, Prod.mk.injEq] at hrun
  obtain ⟨hr, hfs⟩ := hrun
  subst hr
  refine ⟨rfl, ?_, ?_, ?_, ?_, escapeQuotes_id, by decide,
    fun s h => resolveShell_some h, rfl⟩
  · intro h
    simp only [langCase, h] at hplan
    rw [if_pos trivial] at hplan
    cases hplan
    rfl
  · intro h
    simp only [langCase, h] at hplan
    rw [if_pos trivial] at hplan
    cases hplan
    rfl
  · intro h
    simp only [langCase, h] at hplan
    rw [if_pos trivial] at hplan
    cases hplan
    exact ⟨rfl, by simp⟩
  · intro cn h hsome
    simp only [langCase, h, hsome, if_true] at hplan
    cases hplan
    exact ⟨rfl, by simp⟩

/-- C7 witness: the command-construction theorem at a concrete successful go
execution under SHELL=/bin/bash. -/
theorem runCode_command_construction_witness :
    (CodeExecutionResult.mk "ok" "" none
        "/bin/bash -l -c \"go build -o /ext/temp/cafe-9 /ext/temp/cafe-9.go && /ext/temp/cafe-9\"").command =
      resolveShell envGoOk.shellEnv ++ " -l -c \"" ++ escapeQuotes planGo9.rawCommand ++ "\"" ∧
    (jsToLower "go" = "javascript" → planGo9.rawCommand = "node " ++ planGo9.filePath) ∧
    (jsToLower "go" = "python" → planGo9.rawCommand = "python3 " ++ planGo9.filePath) ∧
    (jsToLower "go" = "go" →
      planGo9.rawCommand = "go build -o " ++ pjoin "/ext/temp" envGoOk.uniqueId ++ " " ++
        planGo9.filePath ++ " && " ++ pjoin "/ext/temp" envGoOk.uniqueId ∧
      pjoin "/ext/temp" envGoOk.uniqueId ∈ planGo9.cleanupFiles) ∧
    (∀ cn, jsToLower "go" = "java" → findClassName "package main" = some cn →
      planGo9.rawCommand = "javac " ++ planGo9.filePath ++ " -d " ++ "/ext/temp" ++
        " && java -cp " ++ "/ext/temp" ++ " " ++ cn ∧
      pjoin "/ext/temp" (cn ++ ".class") ∈ planGo9.cleanupFiles) ∧
    (∀ s, (∀ c ∈ s.toList, c ≠ '"') → escapeQuotes s = s) ∧
    escapeQuotes "\"" = "\\\"" ∧
    (∀ s, s ≠ "" → resolveShell (some s) = s) ∧
    resolveShell none = "/bin/zsh" :=
  runCode_command_construction "/ext/temp" "go" "package main" envGoOk ⟨true, []⟩
    planGo9
    ⟨"ok", "", none,
      "/bin/bash -l -c \"go build -o /ext/temp/cafe-9 /ext/temp/cafe-9.go && /ext/temp/cafe-9\""⟩
    ⟨false, []⟩ rfl rfl rfl rfl

/-- C8: when the spawned process fails, a failure message containing the text
command not found is replaced by the guided remediation message, which names
the missing executable and mentions PATH configuration; every other non-empty
failure message is passed through unchanged into the result's error field. -/
theorem runCode_command_not_found_guidance (tempDir language code : String) (env : Env)
    (fs0 : FS) (plan : Plan) (r : CodeExecutionResult) (fs1 : FS) (m : String)
    (hplan : langCase tempDir language code env.uniqueId = .inr plan)
    (hwrite : env.writeThrows = none)
    (hexec : env.execOutcome.err = some m)
    (hrun : runCode tempDir language code env fs0 = .ok (r, fs1)) :
    (jsIncludes m "command not found" = true →
      r.error = some (cmdNotFoundMsg plan.executableCommand) ∧
      jsIncludes (cmdNotFoundMsg plan.executableCommand) plan.executableCommand = true ∧
      jsIncludes (cmdNotFoundMsg plan.executableCommand) "PATH" = true) ∧
    (jsIncludes m "command not found" = false → m ≠ "" → r.error = some m) := by
  have hmk := runCode_ok_dir hrun
  have heval : runCode tempDir language code env fs0 =
      .ok (⟨env.execOutcome.stdout, env.execOutcome.stderr,
          some (jsOr (if jsIncludes m "command not found" then
              cmdNotFoundMsg plan.executableCommand else m)
            "Unknown error during execution"), ""⟩,
        finallyCleanup plan.cleanupFiles
          ⟨true, env.execOutcome.createdFiles ++ plan.filePath :: fs0.tempFiles⟩) := by
    rw [runCode_plan_eq hplan hmk, hwrite, hexec]
  rw [heval] at hrun
  simp only [Except.ok.injEq, Prod.mk.injEq] at hrun
  obtain ⟨hr, hfs⟩ := hrun
  subst hr
  constructor
  · intro hin
    refine ⟨?_, cmdNotFoundMsg_includes_exe plan.executableCommand,
      cmdNotFoundMsg_includes_PATH plan.executableCommand⟩
    show some (jsOr (if jsIncludes m "command not found" then
        cmdNotFoundMsg plan.executableCommand else m) "Unknown error during execution") =
      some (cmdNotFoundMsg plan.executableCommand)
    rw [if_pos hin]
    unfold jsOr
    rw [if_neg (cmdNotFoundMsg_ne_empty plan.executableCommand)]
  · intro hnin hne
    show some (jsOr (if jsIncludes m "command not found" then
        cmdNotFoundMsg plan.executableCommand else m) "Unknown error during execution") =
      some m
    rw [if_neg (by simp [hnin])]
    unfold jsOr
    rw [if_neg hne]

/-- C8 witness: the remediation theorem at a concrete javascript call whose
process failed with a command-not-found message. -/
theorem runCode_command_not_found_guidance_witness :
    (jsIncludes "zsh:1: command not found: node" "command not found" = true →
      (CodeExecutionResult.mk "" "" (some (cmdNotFoundMsg "node")) "").error =
        some (cmdNotFoundMsg planJs3.executableCommand) ∧
      jsIncludes (cmdNotFoundMsg planJs3.executableCommand) planJs3.executableCommand = true ∧
      jsIncludes (cmdNotFoundMsg planJs3.executableCommand) "PATH" = true) ∧
    (jsIncludes "zsh:1: command not found: node" "command not found" = false →
      "zsh:1: command not found: node" ≠ "" →
      (CodeExecutionResult.mk "" "" (some (cmdNotFoundMsg "node")) "").error =
        some "zsh:1: command not found: node") :=
  runCode_command_not_found_guidance "/ext/temp" "javascript" "1" envNodeMissing ⟨true, []⟩
    planJs3 ⟨"", "", some (cmdNotFoundMsg "node"), ""⟩ ⟨false, []⟩
    "zsh:1: command not found: node" rfl rfl rfl rfl

/-- A probe whose every invocation completes with no error, empty stdout and
empty stderr. -/
def probeSilent : String → ProbeOutcome := fun _ => ⟨none, "", ""⟩

/-- C10 counterexample: a probe that completes with no error and completely
empty stderr does not suffice for inclusion: with empty stdout the resolved
path is falsy and the language is excluded, so detection is not an iff on
(no error and empty stderr) alone. -/
theorem detect_excludes_empty_stdout :
    detectInstalledLanguages none probeSilent = [] ∧
    (probeSilent (probeCmd none "node")).err = none ∧
    (probeSilent (probeCmd none "node")).stderr = "" :=
  ⟨rfl, rfl, rfl⟩

/-- The push of one check into the accumulator, abstracted over the inclusion
function, used to relate the detection fold to a filterMap. -/
def pushStep {β : Type} (g : LanguageCheck → Option β) (detected : List β)
    (lang : LanguageCheck) : List β :=
  match g lang with
  | some d => detected ++ [d]
  | none => detected

theorem foldl_push_filterMap {β : Type} (g : LanguageCheck → Option β)
    (checks : List LanguageCheck) (acc : List β) :
    checks.foldl (pushStep g) acc = acc ++ checks.filterMap g := by
  induction checks generalizing acc with
  | nil => simp
  | cons c cs ih =>
    rw [List.foldl_cons, List.filterMap_cons]
    have hstep : pushStep g acc c =
        match g c with
        | some d => acc ++ [d]
        | none => acc := rfl
    rw [hstep]
    cases hF : g c with
    | none =>
      simp only [hF]
      exact ih acc
    | some d =>
      simp only [hF]
      rw [ih (acc ++ [d])]
      simp

theorem detect_step_eq (shellEnv : Option String) (probe : String → ProbeOutcome) :
    (fun (detected : List DetectedLanguage) (lang : LanguageCheck) =>
      match findExecutable shellEnv probe lang.command with
      | some p => if p ≠ "" then detected ++ [⟨lang.name, lang.value, p⟩] else detected
      | none => detected) =
    pushStep (includeCheck shellEnv probe) := by
  funext detected lang
  unfold pushStep includeCheck
  cases hF : findExecutable shellEnv probe lang.command with
  | none => rfl
  | some p =>
    simp only [hF]
    by_cases hp : p = ""
    · subst hp
      rw [if_neg (by simp), if_pos rfl]
    · rw [if_pos hp, if_neg hp]

/-- C10 (amended): the detector returns, in the fixed order of the check list
(JavaScript, Python, Go), exactly the checks whose probe command completed
with no error, completely empty stderr AND non-empty trimmed stdout; in
particular any stderr output during probing (e.g. a login-shell startup
warning) silently excludes an installed toolchain, and so does an empty
resolved path. -/
theorem detect_characterization (shellEnv : Option String) (probe : String → ProbeOutcome) :
    detectInstalledLanguages shellEnv probe =
      languageChecks.filterMap (includeCheck shellEnv probe) ∧
    ∀ lang : LanguageCheck,
      ((includeCheck shellEnv probe lang).isSome ↔
        ((probe (probeCmd shellEnv lang.command)).err = none ∧
         (probe (probeCmd shellEnv lang.command)).stderr = "" ∧
         jsTrim (probe (probeCmd shellEnv lang.command)).stdout ≠ "")) := by
  constructor
  · unfold detectInstalledLanguages
    rw [detect_step_eq]
    simpa using foldl_push_filterMap (includeCheck shellEnv probe) languageChecks []
  · intro lang
    unfold includeCheck findExecutable
    cases hE : (probe (probeCmd shellEnv lang.command)).err with
    | some e => simp [hE]
    | none =>
      by_cases hS : (probe (probeCmd shellEnv lang.command)).stderr = ""
      · by_cases hT : jsTrim (probe (probeCmd shellEnv lang.command)).stdout = ""
        · simp [hE, hS, hT]
        · simp [hE, hS, hT]
      · simp [hE, hS]

end CodeRunner
